import Mathlib

/-!
Verification of the EverMindAgent persistence layer (`packages/ema/src/db`):
the `Fs` blob-store capability with its two backends (`RealFs`, `MemFs`) and
the `FileDB` record store built on top of it.

Shallow embedding conventions:
* A JS object used as a string-keyed map (`Record<string, RoleData>`, the
  `MemFs` `Map`, the on-disk directory of `RealFs`) is an association list
  `List (String × α)`; property assignment updates the first matching key in
  place (preserving insertion order) or appends, matching JS semantics, and
  `Object.values` is the list of values in insertion order.
* Blob text is modelled by `Content`: `Content.json db` stands for
  `JSON.stringify(db, null, 2)` (and for the literal text `"{}"` when
  `db = ⟨none⟩`), while `Content.malformed raw` stands for any text on which
  `JSON.parse` throws.  `jsonParse` is the resulting decode.
* Promises are unfolded: an async method becomes a function from the backend
  state to `result × state`.  `console.error`/`console.warn` logging is a
  side effect outside the embedding.
* `RealFs.write` takes a `WriteOutcome` failure-injection argument modelling
  where an I/O exception (if any) is thrown; the thrown error is returned as
  `Option String` instead of propagating as an exception.
-/

namespace EverMind

/-- Structure `RoleData` from `packages/ema/src/db/base.ts`: all fields optional. -/
structure RoleData where
  id : Option String
  name : Option String
  description : Option String
  prompt : Option String
  createTime : Option Int
  deleteTime : Option Int
deriving DecidableEq

/-- Structure `DatabaseSchema` from the file-db module: `{ roles?: Record<string, RoleData> }`. -/
structure DatabaseSchema where
  roles : Option (List (String × RoleData))
deriving DecidableEq

/-- A text blob, up to JSON decoding: either the serialization of a
`DatabaseSchema` or text on which `JSON.parse` throws. -/
inductive Content where
  | json (db : DatabaseSchema)
  | malformed (raw : String)
deriving DecidableEq

/-- Decode `JSON.parse(content) as DatabaseSchema`, with the thrown exception as `none`. -/
def jsonParse : Content → Option DatabaseSchema
  | .json db => some db
  | .malformed _ => none

/-- Encode `JSON.stringify(db, null, 2)`. -/
def jsonStringify (db : DatabaseSchema) : Content := .json db

/-- The literal text `"{}"`, which parses to a schema with no `roles` key. -/
def emptyObjectText : Content := .json ⟨none⟩

/-- JS property lookup `obj[key]` on a string-keyed object. -/
def objLookup {α : Type} : List (String × α) → String → Option α
  | [], _ => none
  | (k, v) :: rest, key => if k = key then some v else objLookup rest key

/-- JS property assignment `obj[key] = v`: update in place or append. -/
def objSet {α : Type} : List (String × α) → String → α → List (String × α)
  | [], key, v => [(key, v)]
  | (k, w) :: rest, key, v =>
      if k = key then (k, v) :: rest else (k, w) :: objSet rest key v

/-- JS `delete obj[key]`. -/
def objDelete {α : Type} : List (String × α) → String → List (String × α)
  | [], _ => []
  | (k, v) :: rest, key => if k = key then rest else (k, v) :: objDelete rest key

/-- JS `Object.values(obj)`: values in insertion order. -/
def objValues {α : Type} (l : List (String × α)) : List α := l.map Prod.snd

/-- JS property-key coercion applied to `roleData.id` (`string | undefined`):
`obj[undefined]` accesses the property named `"undefined"`. -/
def propKey : Option String → String
  | some s => s
  | none => "undefined"

/-- Backend state: the keyed text blobs (the `files` map of `MemFs`, or the files
on disk for `RealFs`). -/
abbrev Files := List (String × Content)

/-- Method `RealFs.read`: `readFile`, returning `"{}"` when the file does not exist
(the `ENOENT` catch); any other I/O error is outside this success-path model. -/
def RealFs.read (disk : Files) (path : String) : Content :=
  (objLookup disk path).getD emptyObjectText

/-- Split a character list at `'/'` separators. -/
def splitPath : List Char → List (List Char)
  | [] => [[]]
  | c :: rest =>
      match splitPath rest with
      | [] => [[]]
      | seg :: segs => if c = '/' then [] :: seg :: segs else (c :: seg) :: segs

/-- Function `path.dirname` (Node), for the paths appearing in this development. -/
def dirname (p : String) : String :=
  let parts := splitPath p.data
  if parts.length ≤ 1 then "."
  else String.mk (List.intercalate ['/'] parts.dropLast)

/-- The system-wide temporary directory that `tmp.fileSync()` allocates in. -/
def tmpDir : String := "/tmp"

/-- The name `tmp.fileSync()` returns for the staging file of a `RealFs.write`:
a fresh name inside the system temporary directory, independent of the
directory of the target path. -/
def stagingPath (_path : String) : String := tmpDir ++ "/tmp-8Kx2Qa"

/-- Failure injection for `RealFs.write`: which of the two I/O steps inside
the `try` block throws, if any. -/
inductive WriteOutcome where
  | ok
  | failStagingWrite
  | failRename
deriving DecidableEq

/-- The error value thrown by a failing I/O step. -/
def ioError : String := "EIO"

/-- Method `RealFs.write`: `mkdir -p (dirname path)` (no-op in this model), create a
staging file via `tmp.fileSync()`, then `try { writeFile temp; rename temp
path } finally { temp.removeCallback() }`.  Returns the propagated error (if
the injected step threw) together with the final disk state. -/
def RealFs.write (disk : Files) (path : String) (content : Content)
    (o : WriteOutcome) : Option String × Files :=
  let temp := stagingPath path
  let d1 := objSet disk temp (.malformed "")
  match o with
  | .ok =>
      let d2 := objSet d1 temp content
      let d3 := objSet (objDelete d2 temp) path content
      (none, objDelete d3 temp)
  | .failStagingWrite =>
      (some ioError, objDelete d1 temp)
  | .failRename =>
      let d2 := objSet d1 temp content
      (some ioError, objDelete d2 temp)

/-- Method `MemFs.read`: `this.files.get(path) ?? "{}"`. -/
def MemFs.read (files : Files) (path : String) : Content :=
  (objLookup files path).getD emptyObjectText

/-- Method `MemFs.write`: `this.files.set(path, content)`. -/
def MemFs.write (files : Files) (path : String) (content : Content) : Files :=
  objSet files path content

/-- The default `dbPath` of `FileDB`. -/
def defaultDbPath : String := ".data/db.json"

/-- Method `FileDB.readDb` (instantiated with the `MemFs` backend model): read the
blob, `JSON.parse` it; on parse failure log, reset the file to the empty
schema `{ roles: {} }` and return that schema. -/
def FileDB.readDb (files : Files) (path : String) : DatabaseSchema × Files :=
  let content := MemFs.read files path
  match jsonParse content with
  | some db => (db, files)
  | none =>
      let emptyDb : DatabaseSchema := ⟨some []⟩
      (emptyDb, MemFs.write files path (jsonStringify emptyDb))

/-- Method `FileDB.writeDb`: serialize and write through the backend. -/
def FileDB.writeDb (files : Files) (path : String) (db : DatabaseSchema) : Files :=
  MemFs.write files path (jsonStringify db)

/-- Method `FileDB.listRoles`: `Object.values(db.roles ?? {})`. -/
def FileDB.listRoles (files : Files) (path : String) : List RoleData × Files :=
  let p := FileDB.readDb files path
  (objValues (p.1.roles.getD []), p.2)

/-- Method `FileDB.getRole`: `db.roles?.[roleId] ?? null`. -/
def FileDB.getRole (files : Files) (path : String) (roleId : String) :
    Option RoleData × Files :=
  let p := FileDB.readDb files path
  (match p.1.roles with
   | none => none
   | some m => objLookup m roleId, p.2)

/-- Method `FileDB.upsertRole`: load, `db.roles ??= {}`, `db.roles[roleData.id] =
roleData`, persist.  Declared `Promise<void>` in the source, so the result
component is `Unit`, not the id. -/
def FileDB.upsertRole (files : Files) (path : String) (roleData : RoleData) :
    Unit × Files :=
  let p := FileDB.readDb files path
  let m := p.1.roles.getD []
  ((), FileDB.writeDb p.2 path ⟨some (objSet m (propKey roleData.id) roleData)⟩)

/-- Method `FileDB.deleteRole`: load; if `!db.roles || !db.roles[roleId]` return
`false` without writing, else delete the entry, persist, return `true`. -/
def FileDB.deleteRole (files : Files) (path : String) (roleId : String) :
    Bool × Files :=
  let p := FileDB.readDb files path
  match p.1.roles with
  | none => (false, p.2)
  | some m =>
      match objLookup m roleId with
      | none => (false, p.2)
      | some _ => (true, FileDB.writeDb p.2 path ⟨some (objDelete m roleId)⟩)

/-- One record-store-level event for the invariant trace: a CRUD mutation, a
bare load (which performs the decode-failure reset), or an external corruption
of the backing blob. -/
inductive StoreOp where
  | upsert (r : RoleData)
  | del (roleId : String)
  | load
  | corrupt (raw : String)

/-- Run one `StoreOp` against the backend state. -/
def runOp (path : String) (files : Files) : StoreOp → Files
  | .upsert r => (FileDB.upsertRole files path r).2
  | .del roleId => (FileDB.deleteRole files path roleId).2
  | .load => (FileDB.readDb files path).2
  | .corrupt raw => MemFs.write files path (.malformed raw)

/-- Run a trace of `StoreOp`s from a starting state. -/
def runOps (path : String) (files : Files) (ops : List StoreOp) : Files :=
  ops.foldl (runOp path) files

/-- The Schema invariant of the spec: every entry `(k, v)` of the roles
mapping has `v.id == k`. -/
def SchemaInv (db : DatabaseSchema) : Prop :=
  ∀ p ∈ db.roles.getD [], p.2.id = some p.1

instance (db : DatabaseSchema) : Decidable (SchemaInv db) := by
  unfold SchemaInv; infer_instance

/-- The invariant lifted to blob content: whatever the blob decodes to (if it
decodes at all) satisfies `SchemaInv`. -/
def ContentInv (c : Content) : Prop :=
  ∀ db, jsonParse c = some db → SchemaInv db

instance (c : Content) : Decidable (ContentInv c) := by
  unfold ContentInv
  cases c with
  | json db => simp [jsonParse]; infer_instance
  | malformed raw => simp [jsonParse]; infer_instance

/-! ### Association-list lemmas -/

theorem objLookup_objSet {α : Type} (l : List (String × α)) (key k : String) (v : α) :
    objLookup (objSet l key v) k = if k = key then some v else objLookup l k := by
  induction l with
  | nil =>
      simp only [objSet, objLookup]
      by_cases h : k = key
      · simp [h]
      · simp [h, Ne.symm h]
  | cons hd tl ih =>
      obtain ⟨a, b⟩ := hd
      by_cases hak : a = key
      · subst hak
        simp only [objSet, if_pos rfl, objLookup]
        by_cases hk : a = k
        · simp [hk]
        · simp [hk, Ne.symm hk]
      · simp only [objSet, if_neg hak, objLookup, ih]
        by_cases hk : a = k
        · subst hk
          simp [hak]
        · simp [hk]

theorem objLookup_objDelete_ne {α : Type} (l : List (String × α)) (key k : String)
    (h : k ≠ key) : objLookup (objDelete l key) k = objLookup l k := by
  induction l with
  | nil => rfl
  | cons hd tl ih =>
      obtain ⟨a, b⟩ := hd
      by_cases hak : a = key
      · subst hak
        rw [objDelete, if_pos rfl]
        simp [objLookup, Ne.symm h]
      · simp only [objDelete, if_neg hak, objLookup, ih]

theorem objLookup_mem_keys {α : Type} {l : List (String × α)} {key : String} {v : α}
    (h : objLookup l key = some v) : key ∈ l.map Prod.fst := by
  induction l with
  | nil => simp [objLookup] at h
  | cons hd tl ih =>
      obtain ⟨a, b⟩ := hd
      simp only [objLookup] at h
      by_cases hak : a = key
      · simp [hak]
      · simp only [if_neg hak] at h
        simp [ih h]

theorem objLookup_objDelete_self {α : Type} (l : List (String × α)) (key : String)
    (h : (l.map Prod.fst).Nodup) : objLookup (objDelete l key) key = none := by
  induction l with
  | nil => rfl
  | cons hd tl ih =>
      obtain ⟨a, b⟩ := hd
      simp only [List.map_cons, List.nodup_cons] at h
      by_cases hak : a = key
      · subst hak
        rw [objDelete, if_pos rfl]
        cases hl : objLookup tl a with
        | none => rfl
        | some v => exact absurd (objLookup_mem_keys hl) h.1
      · rw [objDelete, if_neg hak]
        rw [objLookup, if_neg hak]
        exact ih h.2

theorem mem_objSet {α : Type} {l : List (String × α)} {key : String} {v : α}
    {p : String × α} (h : p ∈ objSet l key v) : p = (key, v) ∨ p ∈ l := by
  induction l with
  | nil =>
      simp only [objSet, List.mem_singleton] at h
      exact Or.inl h
  | cons hd tl ih =>
      obtain ⟨a, b⟩ := hd
      by_cases hak : a = key
      · subst hak
        rw [objSet, if_pos rfl] at h
        rcases List.mem_cons.mp h with h2 | h2
        · exact Or.inl h2
        · exact Or.inr (List.mem_cons_of_mem _ h2)
      · simp only [objSet, if_neg hak, List.mem_cons] at h
        rcases h with h | h
        · exact Or.inr (by simp [h])
        · rcases ih h with h2 | h2
          · exact Or.inl h2
          · exact Or.inr (List.mem_cons_of_mem _ h2)

theorem mem_objDelete {α : Type} {l : List (String × α)} {key : String}
    {p : String × α} (h : p ∈ objDelete l key) : p ∈ l := by
  induction l with
  | nil => simp [objDelete] at h
  | cons hd tl ih =>
      obtain ⟨a, b⟩ := hd
      by_cases hak : a = key
      · subst hak
        rw [objDelete, if_pos rfl] at h
        exact List.mem_cons_of_mem _ h
      · rw [objDelete, if_neg hak] at h
        rcases List.mem_cons.mp h with h2 | h2
        · simp [h2]
        · exact List.mem_cons_of_mem _ (ih h2)

theorem objSet_keys_nodup {α : Type} {l : List (String × α)}
    (h : (l.map Prod.fst).Nodup) (key : String) (v : α) :
    ((objSet l key v).map Prod.fst).Nodup := by
  induction l with
  | nil => simp [objSet]
  | cons hd tl ih =>
      obtain ⟨a, b⟩ := hd
      simp only [List.map_cons, List.nodup_cons] at h
      by_cases hak : a = key
      · subst hak
        rw [objSet, if_pos rfl]
        simp only [List.map_cons, List.nodup_cons]
        exact ⟨h.1, h.2⟩
      · rw [objSet, if_neg hak]
        simp only [List.map_cons, List.nodup_cons]
        refine ⟨?_, ih h.2⟩
        intro hmem
        rcases List.mem_map.mp hmem with ⟨p, hp, hfst⟩
        rcases mem_objSet hp with h2 | h2
        · exact hak (by rw [← hfst, h2])
        · exact h.1 (List.mem_map.mpr ⟨p, h2, hfst⟩)

theorem objDelete_sublist {α : Type} (l : List (String × α)) (key : String) :
    List.Sublist (objDelete l key) l := by
  induction l with
  | nil => simp [objDelete]
  | cons hd tl ih =>
      obtain ⟨a, b⟩ := hd
      by_cases hak : a = key
      · rw [objDelete, if_pos hak]
        exact List.sublist_cons_self _ _
      · rw [objDelete, if_neg hak]
        exact List.Sublist.cons₂ _ ih

theorem objDelete_keys_nodup {α : Type} {l : List (String × α)}
    (h : (l.map Prod.fst).Nodup) (key : String) :
    ((objDelete l key).map Prod.fst).Nodup :=
  h.sublist ((objDelete_sublist l key).map Prod.fst)

/-! ### Backend and record-store reduction lemmas -/

theorem MemFs.read_write_self (files : Files) (path : String) (c : Content) :
    MemFs.read (MemFs.write files path c) path = c := by
  simp [MemFs.read, MemFs.write, objLookup_objSet]

theorem readDb_of_parse_some {files : Files} {path : String} {db : DatabaseSchema}
    (h : jsonParse (MemFs.read files path) = some db) :
    FileDB.readDb files path = (db, files) := by
  simp [FileDB.readDb, h]

theorem readDb_of_parse_none {files : Files} {path : String}
    (h : jsonParse (MemFs.read files path) = none) :
    FileDB.readDb files path =
      (⟨some []⟩, MemFs.write files path (jsonStringify ⟨some []⟩)) := by
  simp [FileDB.readDb, h]

/-! ### Claim theorems -/

/-- C1: on a blob that fails to decode, `FileDB.readDb` does not propagate the
decode error (its embedded return type is total), constructs the empty schema
`{ roles: {} }`, persists it through the backend `write`, and returns it; the
persisted blob afterwards decodes to that empty schema.  The `console`
logging is a side effect outside the embedding. -/
theorem readDb_decode_failure_self_heals (files : Files) (path : String)
    (h : jsonParse (MemFs.read files path) = none) :
    FileDB.readDb files path =
      (⟨some []⟩, MemFs.write files path (jsonStringify ⟨some []⟩)) ∧
    jsonParse (MemFs.read (FileDB.readDb files path).2 path) = some ⟨some []⟩ := by
  refine ⟨readDb_of_parse_none h, ?_⟩
  rw [readDb_of_parse_none h]
  simp [MemFs.read_write_self, jsonStringify, jsonParse]

/-- Witness for C1: a concrete corrupted blob is healed to the empty schema. -/
theorem readDb_decode_failure_self_heals_witness :
    jsonParse (MemFs.read [(defaultDbPath, Content.malformed "not json")] defaultDbPath) = none ∧
    (FileDB.readDb [(defaultDbPath, Content.malformed "not json")] defaultDbPath =
       (⟨some []⟩,
        MemFs.write [(defaultDbPath, Content.malformed "not json")] defaultDbPath
          (jsonStringify ⟨some []⟩)) ∧
     jsonParse
       (MemFs.read
         (FileDB.readDb [(defaultDbPath, Content.malformed "not json")] defaultDbPath).2
         defaultDbPath) = some ⟨some []⟩) :=
  ⟨by decide, readDb_decode_failure_self_heals _ _ (by decide)⟩

/-- The concrete record `{ id: "x" }`. -/
def roleX : RoleData := ⟨some "x", none, none, none, none, none⟩

/-- C2 (code bug): `FileDB.upsertRole` does set `schema.roles[r.id] = r` and
persist the schema, but it is declared `Promise<void>` and returns no value,
although the `RoleDB` interface it implements declares `Promise<string>`
("the ID of the created or updated role").  Evaluated at the record
`{ id: "x" }` from the empty store, the result component is `()`, not the id
`"x"`. -/
theorem upsertRole_returns_void_not_id :
    FileDB.upsertRole [] defaultDbPath roleX =
      ((), [(defaultDbPath, Content.json ⟨some [("x", roleX)]⟩)]) := by decide

/-- C4 (code bug): the staging file of `RealFs.write` is allocated by
`tmp.fileSync()` inside the system-wide temporary directory, not in the
directory of the target path — as the `todo` comment in the source admits,
this breaks the
same-filesystem precondition of atomic rename. -/
theorem staging_file_not_alongside_target :
    dirname (stagingPath defaultDbPath) = tmpDir ∧
    dirname (stagingPath defaultDbPath) ≠ dirname defaultDbPath := by decide

/-- C5: a key never written (underlying resource absent) reads back as the
literal empty-object text `"{}"` in both backends rather than failing. -/
theorem read_missing_key_returns_empty_object (disk files : Files) (path : String)
    (hd : objLookup disk path = none) (hm : objLookup files path = none) :
    RealFs.read disk path = emptyObjectText ∧ MemFs.read files path = emptyObjectText := by
  simp [RealFs.read, MemFs.read, hd, hm]

/-- Witness for C5: reading any path of the empty backends yields `"{}"`. -/
theorem read_missing_key_returns_empty_object_witness :
    objLookup ([] : Files) defaultDbPath = none ∧
    (RealFs.read [] defaultDbPath = emptyObjectText ∧
     MemFs.read [] defaultDbPath = emptyObjectText) :=
  ⟨rfl, read_missing_key_returns_empty_object [] [] defaultDbPath rfl rfl⟩

/-- C6: against a backing blob that decodes to `db`, `FileDB.deleteRole` of an
id with no entry returns `false` and performs no write (the backend state is
returned unchanged); of an id with an entry it returns `true` and persists the
schema with exactly that entry deleted — the record of every other key is
unchanged, and (keys being unique, as `JSON.parse` guarantees) the deleted id
no longer resolves. -/
theorem deleteRole_spec (files : Files) (path roleId : String) (db : DatabaseSchema)
    (h : jsonParse (MemFs.read files path) = some db) :
    (objLookup (db.roles.getD []) roleId = none →
       FileDB.deleteRole files path roleId = (false, files)) ∧
    (∀ v, objLookup (db.roles.getD []) roleId = some v →
       FileDB.deleteRole files path roleId =
         (true, FileDB.writeDb files path ⟨some (objDelete (db.roles.getD []) roleId)⟩) ∧
       (∀ k, k ≠ roleId →
          objLookup (objDelete (db.roles.getD []) roleId) k =
            objLookup (db.roles.getD []) k) ∧
       (((db.roles.getD []).map Prod.fst).Nodup →
          objLookup (objDelete (db.roles.getD []) roleId) roleId = none)) := by
  have hr := readDb_of_parse_some h
  constructor
  · intro hnone
    cases hdb : db.roles with
    | none => simp [FileDB.deleteRole, hr, hdb]
    | some m =>
        rw [hdb, Option.getD_some] at hnone
        simp [FileDB.deleteRole, hr, hdb, hnone]
  · intro v hv
    cases hdb : db.roles with
    | none =>
        rw [hdb] at hv
        simp [objLookup] at hv
    | some m =>
        rw [hdb, Option.getD_some] at hv
        simp only [Option.getD_some]
        refine ⟨by simp [FileDB.deleteRole, hr, hdb, hv], ?_, ?_⟩
        · intro k hk
          exact objLookup_objDelete_ne _ _ _ hk
        · intro hnodup
          exact objLookup_objDelete_self _ _ hnodup

/-- Witness for C6: deleting a missing id from a concrete one-record store
returns `false` and leaves the state unchanged. -/
theorem deleteRole_spec_witness :
    jsonParse
        (MemFs.read [(defaultDbPath, Content.json ⟨some [("x", roleX)]⟩)] defaultDbPath) =
      some ⟨some [("x", roleX)]⟩ ∧
    objLookup ((⟨some [("x", roleX)]⟩ : DatabaseSchema).roles.getD []) "missing" = none ∧
    FileDB.deleteRole [(defaultDbPath, Content.json ⟨some [("x", roleX)]⟩)] defaultDbPath
        "missing" =
      (false, [(defaultDbPath, Content.json ⟨some [("x", roleX)]⟩)]) :=
  ⟨by decide, by decide,
   (deleteRole_spec _ defaultDbPath "missing" ⟨some [("x", roleX)]⟩ (by decide)).1 (by decide)⟩

/-- C7: upserting a record whose id is `x` and then getting `x` returns that
record (round trip through the store). -/
theorem upsert_then_get_round_trip (files : Files) (path : String) (r : RoleData)
    (x : String) (h : r.id = some x) :
    (FileDB.getRole (FileDB.upsertRole files path r).2 path x).1 = some r := by
  have h2 : jsonParse (MemFs.read (FileDB.upsertRole files path r).2 path) =
      some ⟨some (objSet ((FileDB.readDb files path).1.roles.getD []) x r)⟩ := by
    simp [FileDB.upsertRole, FileDB.writeDb, MemFs.read_write_self, jsonStringify,
      jsonParse, h, propKey]
  simp [FileDB.getRole, readDb_of_parse_some h2, objLookup_objSet]

/-- Witness for C7 at the concrete record `{ id: "x" }` over the empty store. -/
theorem upsert_then_get_round_trip_witness :
    roleX.id = some "x" ∧
    (FileDB.getRole (FileDB.upsertRole [] defaultDbPath roleX).2 defaultDbPath "x").1 =
      some roleX :=
  ⟨rfl, upsert_then_get_round_trip [] defaultDbPath roleX "x" rfl⟩

/-- C10: upserting a record whose id field is absent succeeds and stores the
record under the JS-coerced property key `"undefined"`, so `getRole
"undefined"` returns it. -/
theorem upsert_absent_id_stored_under_undefined (files : Files) (path : String)
    (r : RoleData) (h : r.id = none) :
    (FileDB.getRole (FileDB.upsertRole files path r).2 path "undefined").1 = some r := by
  have h2 : jsonParse (MemFs.read (FileDB.upsertRole files path r).2 path) =
      some ⟨some (objSet ((FileDB.readDb files path).1.roles.getD []) "undefined" r)⟩ := by
    simp [FileDB.upsertRole, FileDB.writeDb, MemFs.read_write_self, jsonStringify,
      jsonParse, h, propKey]
  simp [FileDB.getRole, readDb_of_parse_some h2, objLookup_objSet]

/-- Witness for C10 at a concrete id-less record over the empty store. -/
theorem upsert_absent_id_stored_under_undefined_witness :
    (⟨none, some "nameless", none, none, none, none⟩ : RoleData).id = none ∧
    (FileDB.getRole
        (FileDB.upsertRole [] defaultDbPath
          ⟨none, some "nameless", none, none, none, none⟩).2
        defaultDbPath "undefined").1 =
      some ⟨none, some "nameless", none, none, none, none⟩ :=
  ⟨rfl,
   upsert_absent_id_stored_under_undefined [] defaultDbPath
     ⟨none, some "nameless", none, none, none, none⟩ rfl⟩

/-- C8: if the staging write or the rename inside `RealFs.write` fails, the
error is propagated to the caller, the prior content (or absence) of the
target path is unchanged, and the staging file is removed on every exit path
(including success), by the `finally` cleanup. -/
theorem write_failure_keeps_prior_state (disk : Files) (path : String)
    (content : Content) (o : WriteOutcome) (hp : path ≠ stagingPath path)
    (hn : (disk.map Prod.fst).Nodup) :
    objLookup (RealFs.write disk path content o).2 (stagingPath path) = none ∧
    (o ≠ .ok →
      (RealFs.write disk path content o).1 = some ioError ∧
      objLookup (RealFs.write disk path content o).2 path = objLookup disk path) := by
  have hn1 : ((objSet disk (stagingPath path) (Content.malformed "")).map Prod.fst).Nodup :=
    objSet_keys_nodup hn _ _
  cases o with
  | ok =>
      refine ⟨?_, by simp⟩
      simp only [RealFs.write]
      exact objLookup_objDelete_self _ _
        (objSet_keys_nodup (objDelete_keys_nodup (objSet_keys_nodup hn1 _ _) _) _ _)
  | failStagingWrite =>
      refine ⟨?_, fun _ => ⟨rfl, ?_⟩⟩
      · simp only [RealFs.write]
        exact objLookup_objDelete_self _ _ hn1
      · simp only [RealFs.write]
        rw [objLookup_objDelete_ne _ _ _ hp, objLookup_objSet]
        simp [hp]
  | failRename =>
      refine ⟨?_, fun _ => ⟨rfl, ?_⟩⟩
      · simp only [RealFs.write]
        exact objLookup_objDelete_self _ _ (objSet_keys_nodup hn1 _ _)
      · simp only [RealFs.write]
        rw [objLookup_objDelete_ne _ _ _ hp, objLookup_objSet, objLookup_objSet]
        simp [hp]

/-- Witness for C8: an injected rename failure over a concrete one-file disk. -/
theorem write_failure_keeps_prior_state_witness :
    defaultDbPath ≠ stagingPath defaultDbPath ∧
    (([(defaultDbPath, Content.json ⟨none⟩)] : Files).map Prod.fst).Nodup ∧
    (objLookup
        (RealFs.write [(defaultDbPath, Content.json ⟨none⟩)] defaultDbPath
          (Content.malformed "partial") .failRename).2
        (stagingPath defaultDbPath) = none ∧
     (WriteOutcome.failRename ≠ .ok →
       (RealFs.write [(defaultDbPath, Content.json ⟨none⟩)] defaultDbPath
          (Content.malformed "partial") .failRename).1 = some ioError ∧
       objLookup
           (RealFs.write [(defaultDbPath, Content.json ⟨none⟩)] defaultDbPath
             (Content.malformed "partial") .failRename).2
           defaultDbPath =
         objLookup [(defaultDbPath, Content.json ⟨none⟩)] defaultDbPath)) :=
  ⟨by decide, by decide,
   write_failure_keeps_prior_state _ _ _ _ (by decide) (by decide)⟩

/-- Lemma: `readDb` returns a schema satisfying the invariant and leaves the blob
satisfying it, whenever the blob satisfied it before. -/
theorem readDb_ContentInv {files : Files} {path : String}
    (h : ContentInv (MemFs.read files path)) :
    SchemaInv (FileDB.readDb files path).1 ∧
    ContentInv (MemFs.read (FileDB.readDb files path).2 path) := by
  cases hp : jsonParse (MemFs.read files path) with
  | some db =>
      rw [readDb_of_parse_some hp]
      exact ⟨h db hp, h⟩
  | none =>
      rw [readDb_of_parse_none hp]
      constructor
      · intro p hp2
        simp [SchemaInv] at hp2
      · intro db hdb
        rw [MemFs.read_write_self] at hdb
        simp only [jsonStringify, jsonParse, Option.some.injEq] at hdb
        subst hdb
        intro p hp2
        simp at hp2

/-- One step of a record-store trace preserves the invariant on the blob. -/
theorem runOp_preserves_ContentInv (path : String) (files : Files) (op : StoreOp)
    (hid : ∀ r, op = .upsert r → (r.id).isSome = true)
    (h : ContentInv (MemFs.read files path)) :
    ContentInv (MemFs.read (runOp path files op) path) := by
  cases op with
  | load => exact (readDb_ContentInv h).2
  | corrupt raw =>
      intro db hdb
      simp [runOp, MemFs.read_write_self, jsonParse] at hdb
  | upsert r =>
      obtain ⟨i, hi⟩ := Option.isSome_iff_exists.mp (hid r rfl)
      have hdb := readDb_ContentInv h
      intro db2 hdb2
      simp only [runOp, FileDB.upsertRole, FileDB.writeDb] at hdb2
      rw [MemFs.read_write_self] at hdb2
      simp only [jsonStringify, jsonParse, Option.some.injEq] at hdb2
      subst hdb2
      intro p hp
      simp only [Option.getD_some] at hp
      rcases mem_objSet hp with h2 | h2
      · rw [h2]
        simp [hi, propKey]
      · exact hdb.1 p h2
  | del roleId =>
      have hdb := readDb_ContentInv h
      cases hroles : (FileDB.readDb files path).1.roles with
      | none =>
          simp only [runOp, FileDB.deleteRole, hroles]
          exact hdb.2
      | some m =>
          cases hl : objLookup m roleId with
          | none =>
              simp only [runOp, FileDB.deleteRole, hroles, hl]
              exact hdb.2
          | some v =>
              simp only [runOp, FileDB.deleteRole, hroles, hl, FileDB.writeDb]
              intro db2 hdb2
              rw [MemFs.read_write_self] at hdb2
              simp only [jsonStringify, jsonParse, Option.some.injEq] at hdb2
              subst hdb2
              intro p hp
              simp only [Option.getD_some] at hp
              exact hdb.1 p (by rw [hroles, Option.getD_some]; exact mem_objDelete hp)

/-- A whole trace preserves the invariant on the blob. -/
theorem runOps_preserve_ContentInv (path : String) (ops : List StoreOp) (files : Files)
    (hid : ∀ r, StoreOp.upsert r ∈ ops → (r.id).isSome = true)
    (h : ContentInv (MemFs.read files path)) :
    ContentInv (MemFs.read (runOps path files ops) path) := by
  induction ops generalizing files with
  | nil => exact h
  | cons op rest ih =>
      exact ih (runOp path files op)
        (fun r hr => hid r (List.mem_cons_of_mem _ hr))
        (runOp_preserves_ContentInv path files op
          (fun r hr => hid r (by rw [hr]; exact List.mem_cons_self _ _)) h)

/-- C3: starting from the empty store, every trace of record-store events —
upserts whose record has its id set, deletes, bare loads (which perform the
decode-failure reset), and even external corruptions of the backing blob —
maintains the invariant that whatever the persisted blob decodes to, every
entry `(k, v)` of its roles mapping satisfies `v.id == k`. -/
theorem store_trace_preserves_schema_invariant (path : String) (ops : List StoreOp)
    (hid : ∀ r, StoreOp.upsert r ∈ ops → (r.id).isSome = true) :
    ContentInv (MemFs.read (runOps path [] ops) path) := by
  refine runOps_preserve_ContentInv path ops [] hid ?_
  intro db hdb
  simp only [MemFs.read, objLookup, Option.getD_none, emptyObjectText, jsonParse,
    Option.some.injEq] at hdb
  subst hdb
  intro p hp
  simp at hp

/-- Witness for C3: a concrete trace with an upsert, an external corruption, a
healing load and a delete. -/
theorem store_trace_preserves_schema_invariant_witness :
    (∀ r, StoreOp.upsert r ∈
        [StoreOp.upsert roleX, StoreOp.corrupt "zz", StoreOp.load, StoreOp.del "x"] →
      (r.id).isSome = true) ∧
    ContentInv
      (MemFs.read
        (runOps defaultDbPath []
          [StoreOp.upsert roleX, StoreOp.corrupt "zz", StoreOp.load, StoreOp.del "x"])
        defaultDbPath) := by
  have hid : ∀ r, StoreOp.upsert r ∈
      [StoreOp.upsert roleX, StoreOp.corrupt "zz", StoreOp.load, StoreOp.del "x"] →
      (r.id).isSome = true := by
    intro r hr
    simp only [List.mem_cons, List.mem_singleton, reduceCtorEq, or_false, false_or] at hr
    rcases hr with hr | hr
    · rw [StoreOp.upsert.injEq] at hr
      rw [hr]
      rfl
    · simp at hr
  exact ⟨hid, store_trace_preserves_schema_invariant defaultDbPath _ hid⟩

/-- C9: upserting three records with pairwise distinct (set) ids into the
empty store makes `listRoles` return exactly `[a, b, c]` — in particular,
exactly the set `{a, b, c}`. -/
theorem upsert_three_then_list (path : String) (a b c : RoleData) (ia ib ic : String)
    (ha : a.id = some ia) (hb : b.id = some ib) (hc : c.id = some ic)
    (hab : ia ≠ ib) (hac : ia ≠ ic) (hbc : ib ≠ ic) :
    (FileDB.listRoles
        (FileDB.upsertRole (FileDB.upsertRole (FileDB.upsertRole [] path a).2 path b).2
          path c).2
        path).1 = [a, b, c] := by
  have h1 : (FileDB.upsertRole ([] : Files) path a).2 =
      [(path, Content.json ⟨some [(ia, a)]⟩)] := by
    simp [FileDB.upsertRole, FileDB.readDb, FileDB.writeDb, MemFs.read, MemFs.write,
      objLookup, objSet, emptyObjectText, jsonParse, jsonStringify, propKey, ha]
  have h2 : (FileDB.upsertRole [(path, Content.json ⟨some [(ia, a)]⟩)] path b).2 =
      [(path, Content.json ⟨some [(ia, a), (ib, b)]⟩)] := by
    simp [FileDB.upsertRole, FileDB.readDb, FileDB.writeDb, MemFs.read, MemFs.write,
      objLookup, objSet, emptyObjectText, jsonParse, jsonStringify, propKey, hb, hab]
  have h3 : (FileDB.upsertRole [(path, Content.json ⟨some [(ia, a), (ib, b)]⟩)] path c).2 =
      [(path, Content.json ⟨some [(ia, a), (ib, b), (ic, c)]⟩)] := by
    simp [FileDB.upsertRole, FileDB.readDb, FileDB.writeDb, MemFs.read, MemFs.write,
      objLookup, objSet, emptyObjectText, jsonParse, jsonStringify, propKey, hc, hac, hbc]
  rw [h1, h2, h3]
  simp [FileDB.listRoles, FileDB.readDb, MemFs.read, objLookup, jsonParse, objValues]

/-- Witness for C9 at three concrete records with ids `"a"`, `"b"`, `"c"`. -/
theorem upsert_three_then_list_witness :
    (⟨some "a", none, none, none, none, none⟩ : RoleData).id = some "a" ∧
    ("a" : String) ≠ "b" ∧ ("a" : String) ≠ "c" ∧ ("b" : String) ≠ "c" ∧
    (FileDB.listRoles
        (FileDB.upsertRole
          (FileDB.upsertRole
            (FileDB.upsertRole [] defaultDbPath ⟨some "a", none, none, none, none, none⟩).2
            defaultDbPath ⟨some "b", none, none, none, none, none⟩).2
          defaultDbPath ⟨some "c", none, none, none, none, none⟩).2
        defaultDbPath).1 =
      [⟨some "a", none, none, none, none, none⟩, ⟨some "b", none, none, none, none, none⟩,
       ⟨some "c", none, none, none, none, none⟩] :=
  ⟨rfl, by decide, by decide, by decide,
   upsert_three_then_list defaultDbPath _ _ _ "a" "b" "c" rfl rfl rfl (by decide) (by decide)
     (by decide)⟩

end EverMind
